import Mathlib

/-!
Shallow embedding of the AI-driven adaptive pricing ecosystem
(`pricing_engine.py`, `pricing_data_collector.py`).

Python values that flow through the pipeline (dict entries, feature
values) are modelled by the inductive `PyVal`; Python floats by
`PyFloat` (a rational number, NaN, or a signed infinity, so that the
non-finite cases the code can encounter are represented explicitly).
Python exceptions are modelled by the `Except PyErr` monad: a function
that can raise returns `Except PyErr α`, a `try/except` block is a
`match` on that result.  The prediction model (`.models.PricingModel`)
is an external collaborator: its `predict`/`train` outcomes are passed
in as `Except`-valued arguments.
-/

/-- Python exception kinds relevant to this code base. -/
inductive PyErr where
  | attributeError
  | typeError
  | exception
  deriving DecidableEq, Repr

/-- Python values appearing in the data bundles and feature dicts:
`None`, numbers (idealized as rationals), strings, dicts and lists. -/
inductive PyVal where
  | none
  | num (q : ℚ)
  | str (s : String)
  | dict (entries : List (String × PyVal))
  | list (elems : List PyVal)

namespace PyVal

/-- Python truthiness: `None`, `0`, `""`, `{}`, `[]` are falsy. -/
def truthy : PyVal → Bool
  | .none => false
  | .num q => q != 0
  | .str s => s != ""
  | .dict es => !es.isEmpty
  | .list es => !es.isEmpty

end PyVal

/-- Lookup in a Python dict literal: `es.get(k, dflt)` on a dict whose
entries are `es`. -/
def dget (es : List (String × PyVal)) (k : String) (dflt : PyVal) : PyVal :=
  (es.find? (fun e => e.fst == k)).elim dflt Prod.snd

/-- `v.get(k, dflt)`: succeeds only when `v` is a dict; any other value
has no `.get` attribute, so Python raises `AttributeError`. -/
def pyDictGet (v : PyVal) (k : String) (dflt : PyVal) : Except PyErr PyVal :=
  match v with
  | .dict es => .ok (dget es k dflt)
  | _ => .error .attributeError

/-- Python `len(v)`: defined for dicts, lists and strings, `TypeError`
otherwise. -/
def pyLenVal (v : PyVal) : Except PyErr PyVal :=
  match v with
  | .dict es => .ok (.num es.length)
  | .list es => .ok (.num es.length)
  | .str s => .ok (.num s.length)
  | _ => .error .typeError

/-- Does the feature dict contain key `k`? -/
def hasKey (fs : List (String × PyVal)) (k : String) : Bool :=
  fs.any (fun e => e.fst == k)

/-- The raw data bundle passed to the engine: a Python dict with the
three optional keys.  `Option.none` models an absent key; `some v`
models the key being present with value `v` (which the collector
normally makes a dict, but nothing enforces that). -/
structure RawDataBundle where
  market : Option PyVal
  customer : Option PyVal
  competitor : Option PyVal

/-- The market block of `PricingEngine._engineer_features`: executed
when `data.get('market')` is truthy; reads `demand` and
`economic_indicator` with default `0`. -/
def marketFeats (v : PyVal) : Except PyErr (List (String × PyVal)) :=
  if v.truthy then
    match v with
    | .dict es =>
        .ok [("market_demand", dget es "demand" (.num 0)),
             ("economic_indicator", dget es "economic_indicator" (.num 0))]
    | _ => .error .attributeError
  else .ok []

/-- The customer block of `_engineer_features`: reads
`preference_score` (default `0`) and `seasonal_patterns` (default `{}`). -/
def customerFeats (v : PyVal) : Except PyErr (List (String × PyVal)) :=
  if v.truthy then
    match v with
    | .dict es =>
        .ok [("customer_preference", dget es "preference_score" (.num 0)),
             ("seasonal_pattern", dget es "seasonal_patterns" (.dict []))]
    | _ => .error .attributeError
  else .ok []

/-- The competitor block of `_engineer_features`: reads `avg_price`
(default `0`) and `len(data['competitor'].get('prices', []))`. -/
def competitorFeats (v : PyVal) : Except PyErr (List (String × PyVal)) :=
  if v.truthy then
    match v with
    | .dict es =>
        match pyLenVal (dget es "prices" (.list [])) with
        | .ok n => .ok [("competitor_price_avg", dget es "avg_price" (.num 0)),
                        ("competitor_count", n)]
        | .error e => .error e
    | _ => .error .attributeError
  else .ok []

/-- `PricingEngine._engineer_features`: builds the feature dict section
by section, in the insertion order of the source (market, customer,
competitor).  A key absent from the bundle makes `data.get(...)` return
`None`, which is falsy, so the section is skipped. -/
def engineer_features (data : RawDataBundle) : Except PyErr (List (String × PyVal)) :=
  match marketFeats (data.market.getD PyVal.none) with
  | .error e => .error e
  | .ok f1 =>
    match customerFeats (data.customer.getD PyVal.none) with
    | .error e => .error e
    | .ok f2 =>
      match competitorFeats (data.competitor.getD PyVal.none) with
      | .error e => .error e
      | .ok f3 => .ok (f1 ++ f2 ++ f3)

/-- Python floats as the business-rule adjuster sees them: NaN, a
signed infinity, or a finite value (idealized as an exact rational). -/
inductive PyFloat where
  | nan
  | inf (pos : Bool)
  | fin (q : ℚ)
  deriving DecidableEq, Repr

namespace PyFloat

/-- Python `<` on floats: every comparison involving NaN is `False`. -/
def lt : PyFloat → PyFloat → Bool
  | .nan, _ => false
  | _, .nan => false
  | .inf a, .inf b => !a && b
  | .inf a, .fin _ => !a
  | .fin _, .inf b => b
  | .fin q, .fin r => q < r

/-- Python `min(a, b)`: keeps `a` unless `b` compares strictly below it
(so `min(nan, x) = nan` and `min(x, nan) = x`). -/
def pymin (a b : PyFloat) : PyFloat := if lt b a then b else a

/-- Python `max(a, b)`: keeps `a` unless `b` compares strictly above it. -/
def pymax (a b : PyFloat) : PyFloat := if lt a b then b else a

/-- Float multiplication, used for the seasonal discount factor. -/
def mul : PyFloat → PyFloat → PyFloat
  | .nan, _ => .nan
  | _, .nan => .nan
  | .inf a, .inf b => .inf (a == b)
  | .inf a, .fin r => if r = 0 then .nan else .inf (a == decide (0 < r))
  | .fin q, .inf b => if q = 0 then .nan else .inf (b == decide (0 < q))
  | .fin q, .fin r => .fin (q * r)

/-- Round-half-to-even to an integer (the tie rule of Python `round`). -/
def rndHalfEven (x : ℚ) : ℤ :=
  if x - ⌊x⌋ < 1/2 then ⌊x⌋
  else if 1/2 < x - ⌊x⌋ then ⌊x⌋ + 1
  else if ⌊x⌋ % 2 = 0 then ⌊x⌋ else ⌊x⌋ + 1

/-- Python `round(x, 2)`: NaN and the infinities pass through; a finite
value is rounded half-to-even at the second decimal. -/
def round2 : PyFloat → PyFloat
  | .nan => .nan
  | .inf b => .inf b
  | .fin q => .fin (rndHalfEven (q * 100) / 100)

end PyFloat

/-- The configuration dict, restricted to the keys the engine reads.
`Option.none` models an absent key (`config.get` then yields the
default: `0` for `min_price`, `float('inf')` for `max_price`);
`seasonal_discount` is read for truthiness only. -/
structure PricingConfig where
  min_price : Option PyFloat
  max_price : Option PyFloat
  seasonal_discount : Bool
  deriving DecidableEq, Repr

/-- The clamp step of `PricingEngine._adjust_for_business_rules`:
`max(min(predicted_price, max_price), min_price)` with the configured
defaults `min_price=0`, `max_price=float('inf')`. -/
def clampOnly (cfg : PricingConfig) (p : PyFloat) : PyFloat :=
  let min_price := cfg.min_price.getD (.fin 0)
  let max_price := cfg.max_price.getD (.inf true)
  PyFloat.pymax (PyFloat.pymin p max_price) min_price

/-- `PricingEngine._adjust_for_business_rules`: clamp, then (when
`seasonal_discount` is truthy) multiply by `1 - 0.1`, then
`round(_, 2)`.  The source raises nothing here. -/
def adjust (cfg : PricingConfig) (predicted_price : PyFloat) : PyFloat :=
  let clamped_price := clampOnly cfg predicted_price
  let clamped_price :=
    if cfg.seasonal_discount then clamped_price.mul (.fin (1 - 1/10))
    else clamped_price
  clamped_price.round2

/-- The body of the `try` block of
`PricingEngine.calculate_optimal_price`: feature engineering, then the
(external) model's `predict`, then the business-rule adjustment.  The
predictor is opaque, so its outcome is a function argument. -/
def pipelineTry (predict : List (String × PyVal) → Except PyErr PyFloat)
    (cfg : PricingConfig) (data : RawDataBundle) : Except PyErr PyFloat :=
  match engineer_features data with
  | .error e => .error e
  | .ok features =>
    match predict features with
    | .error e => .error e
    | .ok predicted_price => .ok (adjust cfg predicted_price)

/-- `PricingEngine.calculate_optimal_price`: runs the pipeline inside
`try`; the bare `except Exception` logs and `return None`, modelled as
`Option.none`; a normal return is `some price`. -/
def calculate_optimal_price (predict : List (String × PyVal) → Except PyErr PyFloat)
    (cfg : PricingConfig) (data : RawDataBundle) : Option PyFloat :=
  match pipelineTry predict cfg data with
  | .ok price => some price
  | .error _ => Option.none

/-- `PricingEngine.update_model`: calls the external model's `train`
inside `try`; `except Exception` logs and falls through, so the caller
always sees a normal return (`.ok ()`), never an exception. -/
def update_model (trainResult : Except PyErr Unit) : Except PyErr Unit :=
  match trainResult with
  | .ok _ => .ok ()
  | .error _ => .ok ()

/-- One HTTP fetch of `PricingDataCollector`
(`fetch_market_data` / `fetch_customer_behavior` /
`fetch_competitive_data`): the request/parse outcome is opaque input;
the `try/except` turns any raised exception into `return None`. -/
def fetchData (response : Except PyErr PyVal) : PyVal :=
  match response with
  | .ok v => v
  | .error _ => PyVal.none

/-- Python `v is not None`. -/
def isNotNone : PyVal → Bool
  | PyVal.none => false
  | _ => true

/-- `PricingDataCollector.collect`: builds the dict of the three fetch
results, then filters out the entries whose value `is None`. -/
def collect (respMarket respCustomer respCompetitor : Except PyErr PyVal) :
    List (String × PyVal) :=
  let data := [("market", fetchData respMarket),
               ("customer", fetchData respCustomer),
               ("competitor", fetchData respCompetitor)]
  data.filter (fun e => isNotNone e.snd)

/-- C9: `update_model` never propagates an exception to its caller:
whether the model's `train` raises or returns, `update_model` returns
normally. -/
theorem update_model_never_raises (trainResult : Except PyErr Unit) :
    update_model trainResult = .ok () := by
  cases trainResult <;> rfl

/-- C5: with config `{min_price: 10, max_price: 100, seasonal_discount:
true}` and predicted price 200, the adjuster first clamps to 100, then
applies the fixed 10% discount after clamping, returning exactly 90.0. -/
theorem adjust_clamp_then_discount_scenario :
    clampOnly ⟨some (.fin 10), some (.fin 100), true⟩ (.fin 200) = .fin 100 ∧
    adjust ⟨some (.fin 10), some (.fin 100), true⟩ (.fin 200) = .fin 90 := by
  constructor
  · decide
  · show PyFloat.round2 ((PyFloat.fin 100).mul (.fin (1 - 1/10))) = .fin 90
    simp only [PyFloat.mul, PyFloat.round2, PyFloat.fin.injEq, PyFloat.rndHalfEven]
    norm_num

/-- C2 (counterexample): the adjuster raises no `InvalidPriceError` on a
non-finite predicted price — with the default config NaN comes back as
NaN and +inf as +inf (the definition of `adjust` has no error channel at
all, mirroring the source, which performs no finiteness check). -/
theorem adjust_nonfinite_no_error_cex :
    adjust ⟨Option.none, Option.none, false⟩ PyFloat.nan = PyFloat.nan ∧
    adjust ⟨Option.none, Option.none, false⟩ (PyFloat.inf true) = PyFloat.inf true := by
  constructor <;> decide

/-- C2 (amended): for every config, a NaN predicted price propagates
through clamp, discount and rounding to a NaN recommendation; no error
is raised. -/
theorem adjust_nan_propagates (cfg : PricingConfig) :
    adjust cfg PyFloat.nan = PyFloat.nan := by
  have h1 : ∀ x, PyFloat.lt x PyFloat.nan = false := by intro x; cases x <;> rfl
  have h2 : ∀ x, PyFloat.lt PyFloat.nan x = false := by intro x; cases x <;> rfl
  have hclamp : clampOnly cfg PyFloat.nan = PyFloat.nan := by
    simp [clampOnly, PyFloat.pymin, PyFloat.pymax, h1, h2]
  cases hd : cfg.seasonal_discount <;>
    simp [adjust, hclamp, hd, PyFloat.mul, PyFloat.round2]

/-- C1 (counterexample): when the predictor raises,
`calculate_optimal_price` returns Python `None` (modelled `Option.none`)
instead of surfacing a typed `PricingError`: the bare `except` swallows
the exception. -/
theorem run_predict_raises_returns_none_cex :
    calculate_optimal_price (fun _ => .error .exception)
      ⟨Option.none, Option.none, false⟩ ⟨Option.none, Option.none, Option.none⟩
      = Option.none := rfl

/-- C1 (amended): whenever the predictor raises on every feature set
(so the prediction stage fails), `calculate_optimal_price` catches the
exception and returns a silent `None` — no typed error and no partial
price reach the caller. -/
theorem run_failure_returns_none
    (predict : List (String × PyVal) → Except PyErr PyFloat)
    (cfg : PricingConfig) (data : RawDataBundle) (e : PyErr)
    (h : ∀ fs, predict fs = .error e) :
    calculate_optimal_price predict cfg data = Option.none := by
  unfold calculate_optimal_price pipelineTry
  cases hf : engineer_features data
  · rfl
  · simp only [h]

theorem run_failure_returns_none_witness :
    calculate_optimal_price (fun _ => Except.error PyErr.exception)
      ⟨some (PyFloat.fin 10), some (PyFloat.fin 100), false⟩
      ⟨some (PyVal.dict [("demand", PyVal.num 5)]), Option.none, Option.none⟩
      = Option.none :=
  run_failure_returns_none _ _ _ PyErr.exception (fun _ => rfl)

/-- C6: when the configured bounds are misordered (`min_price >
max_price`), the clamp resolves the conflict with `min_price` winning,
and nothing is raised (the embedding is total). -/
theorem clamp_misconfig_min_wins (cfg : PricingConfig) (p : ℚ)
    (h : PyFloat.lt (cfg.max_price.getD (.inf true)) (cfg.min_price.getD (.fin 0)) = true) :
    clampOnly cfg (.fin p) = cfg.min_price.getD (.fin 0) := by
  have key : PyFloat.lt (PyFloat.pymin (.fin p) (cfg.max_price.getD (.inf true)))
      (cfg.min_price.getD (.fin 0)) = true := by
    rcases hmx : cfg.max_price.getD (.inf true) with _ | b | q
    · rw [hmx] at h; cases (cfg.min_price.getD (.fin 0)) <;> simp [PyFloat.lt] at h
    · rw [hmx] at h
      cases b
      · have hm : PyFloat.pymin (.fin p) (.inf false) = .inf false := by
          simp [PyFloat.pymin, PyFloat.lt]
        rw [hm]; exact h
      · rcases hmn : cfg.min_price.getD (.fin 0) with _ | c | r <;>
          rw [hmn] at h <;> simp [PyFloat.lt] at h
    · rw [hmx] at h
      by_cases hpq : q < p
      · have hm : PyFloat.pymin (.fin p) (.fin q) = .fin q := by
          simp [PyFloat.pymin, PyFloat.lt, hpq]
        rw [hm]; exact h
      · have hm : PyFloat.pymin (.fin p) (.fin q) = .fin p := by
          simp [PyFloat.pymin, PyFloat.lt, hpq]
        rw [hm]
        rcases hmn : cfg.min_price.getD (.fin 0) with _ | c | r <;> rw [hmn] at h
        · simp [PyFloat.lt] at h
        · cases c
          · simp [PyFloat.lt] at h
          · simp [PyFloat.lt]
        · simp [PyFloat.lt] at h ⊢
          linarith [le_of_not_lt hpq]
  unfold clampOnly
  simp only [PyFloat.pymax, key, if_true]

theorem clamp_misconfig_min_wins_witness :
    PyFloat.lt ((PricingConfig.mk (some (.fin 10)) (some (.fin 5)) false).max_price.getD (.inf true))
      ((PricingConfig.mk (some (.fin 10)) (some (.fin 5)) false).min_price.getD (.fin 0)) = true ∧
    clampOnly ⟨some (.fin 10), some (.fin 5), false⟩ (.fin 7)
      = (PricingConfig.mk (some (.fin 10)) (some (.fin 5)) false).min_price.getD (.fin 0) :=
  ⟨by decide, clamp_misconfig_min_wins ⟨some (.fin 10), some (.fin 5), false⟩ 7 (by decide)⟩

/-- C8: `collect` is total (each fetch's `try/except` turns any raised
exception into `None`, so the embedding has no error channel), and a key
is present in the returned bundle iff the corresponding fetch returned a
non-`None` value. -/
theorem collect_keys_iff_fetch_ok (rm rc rk : Except PyErr PyVal) :
    (hasKey (collect rm rc rk) "market" = true ↔ ∃ v, rm = .ok v ∧ v ≠ PyVal.none) ∧
    (hasKey (collect rm rc rk) "customer" = true ↔ ∃ v, rc = .ok v ∧ v ≠ PyVal.none) ∧
    (hasKey (collect rm rc rk) "competitor" = true ↔ ∃ v, rk = .ok v ∧ v ≠ PyVal.none) := by
  have hok : ∀ r : Except PyErr PyVal,
      (isNotNone (fetchData r) = true ↔ ∃ v, r = .ok v ∧ v ≠ PyVal.none) := by
    intro r
    cases r with
    | ok v => cases v <;> simp [fetchData, isNotNone]
    | error e => simp [fetchData, isNotNone]
  have e1 : hasKey (collect rm rc rk) "market" = isNotNone (fetchData rm) := by
    simp only [collect, hasKey]
    cases h1 : isNotNone (fetchData rm) <;> cases h2 : isNotNone (fetchData rc) <;>
      cases h3 : isNotNone (fetchData rk) <;>
        simp [List.filter_cons, h1, h2, h3, List.any_cons]
  have e2 : hasKey (collect rm rc rk) "customer" = isNotNone (fetchData rc) := by
    simp only [collect, hasKey]
    cases h1 : isNotNone (fetchData rm) <;> cases h2 : isNotNone (fetchData rc) <;>
      cases h3 : isNotNone (fetchData rk) <;>
        simp [List.filter_cons, h1, h2, h3, List.any_cons]
  have e3 : hasKey (collect rm rc rk) "competitor" = isNotNone (fetchData rk) := by
    simp only [collect, hasKey]
    cases h1 : isNotNone (fetchData rm) <;> cases h2 : isNotNone (fetchData rc) <;>
      cases h3 : isNotNone (fetchData rk) <;>
        simp [List.filter_cons, h1, h2, h3, List.any_cons]
  exact ⟨e1 ▸ hok rm, e2 ▸ hok rc, e3 ▸ hok rk⟩

/-- C10: a section key that is present but maps to a falsy value (empty
mapping, `None`, `0`, ...) is treated by `_engineer_features` exactly as
if the key were absent, whichever of the three sections it is. -/
theorem engineer_features_falsy_section_as_absent (v : PyVal) (hv : v.truthy = false)
    (m c k : Option PyVal) :
    engineer_features ⟨some v, c, k⟩ = engineer_features ⟨Option.none, c, k⟩ ∧
    engineer_features ⟨m, some v, k⟩ = engineer_features ⟨m, Option.none, k⟩ ∧
    engineer_features ⟨m, c, some v⟩ = engineer_features ⟨m, c, Option.none⟩ := by
  have h0 : PyVal.none.truthy = false := rfl
  refine ⟨?_, ?_, ?_⟩ <;>
    simp [engineer_features, marketFeats, customerFeats, competitorFeats, hv, h0]

theorem engineer_features_falsy_section_as_absent_witness :
    (PyVal.dict []).truthy = false ∧
    (engineer_features ⟨some (PyVal.dict []), Option.none, Option.none⟩
        = engineer_features ⟨Option.none, Option.none, Option.none⟩ ∧
     engineer_features ⟨Option.none, some (PyVal.dict []), Option.none⟩
        = engineer_features ⟨Option.none, Option.none, Option.none⟩ ∧
     engineer_features ⟨Option.none, Option.none, some (PyVal.dict [])⟩
        = engineer_features ⟨Option.none, Option.none, Option.none⟩) :=
  ⟨rfl, engineer_features_falsy_section_as_absent (PyVal.dict []) rfl
    Option.none Option.none Option.none⟩

/-- On finite inputs with both bounds configured finite, the Python
clamp `max(min(p, hi), lo)` agrees with the mathematical
`max (min p hi) lo`. -/
theorem lt_fin_fin (q r : ℚ) : PyFloat.lt (.fin q) (.fin r) = decide (q < r) := rfl

theorem pymin_fin (x y : ℚ) : PyFloat.pymin (.fin x) (.fin y) = .fin (min x y) := by
  unfold PyFloat.pymin
  rw [lt_fin_fin]
  by_cases h : y < x
  · rw [if_pos (by simpa using h), min_eq_right h.le]
  · rw [if_neg (by simpa using h), min_eq_left (le_of_not_lt h)]

theorem pymax_fin (x y : ℚ) : PyFloat.pymax (.fin x) (.fin y) = .fin (max x y) := by
  unfold PyFloat.pymax
  rw [lt_fin_fin]
  by_cases h : x < y
  · rw [if_pos (by simpa using h), max_eq_right h.le]
  · rw [if_neg (by simpa using h), max_eq_left (le_of_not_lt h)]

theorem clampOnly_fin (d : Bool) (lo hi x : ℚ) :
    clampOnly ⟨some (.fin lo), some (.fin hi), d⟩ (.fin x) = .fin (max (min x hi) lo) := by
  show PyFloat.pymax (PyFloat.pymin (.fin x) (.fin hi)) (.fin lo) = _
  rw [pymin_fin, pymax_fin]

/-- `rndHalfEven` returns either the floor or the floor plus one. -/
theorem rndHalfEven_mem (y : ℚ) :
    PyFloat.rndHalfEven y = ⌊y⌋ ∨ PyFloat.rndHalfEven y = ⌊y⌋ + 1 := by
  unfold PyFloat.rndHalfEven
  split_ifs <;> simp

/-- Any integer lower bound on the argument bounds `rndHalfEven` below. -/
theorem rndHalfEven_ge (y : ℚ) (a : ℤ) (h : (a : ℚ) ≤ y) :
    a ≤ PyFloat.rndHalfEven y := by
  have hf : a ≤ ⌊y⌋ := Int.le_floor.mpr h
  rcases rndHalfEven_mem y with he | he <;> rw [he] <;> omega

/-- Any integer upper bound on the argument bounds `rndHalfEven` above. -/
theorem rndHalfEven_le (y : ℚ) (b : ℤ) (h : y ≤ (b : ℚ)) :
    PyFloat.rndHalfEven y ≤ b := by
  have hfb : ⌊y⌋ ≤ b := by simpa using Int.floor_le_floor h
  unfold PyFloat.rndHalfEven
  by_cases h1 : y - ⌊y⌋ < 1/2
  · rw [if_pos h1]; exact hfb
  · rw [if_neg h1]
    have hy : (⌊y⌋ : ℚ) < y := by
      have hhalf : (1:ℚ)/2 ≤ y - ⌊y⌋ := le_of_not_lt h1
      linarith
    have hlt : ⌊y⌋ < b := by exact_mod_cast lt_of_lt_of_le hy h
    by_cases h2 : 1/2 < y - ⌊y⌋
    · rw [if_pos h2]; omega
    · rw [if_neg h2]
      by_cases h3 : ⌊y⌋ % 2 = 0
      · rw [if_pos h3]; exact hfb
      · rw [if_neg h3]; omega

/-- C4 (counterexample): with `min_price = 10.001`, `max_price = 20`,
no discount, and predicted price 5, clamping yields 10.001 but the
final `round(_, 2)` brings the result down to 10.0, strictly below the
configured `min_price` — so the bounds invariant does not survive the
rounding step in general. -/
theorem adjust_bounds_cex :
    adjust ⟨some (.fin (10001/1000)), some (.fin 20), false⟩ (.fin 5) = .fin 10 ∧
    (10 : ℚ) < 10001/1000 := by
  constructor
  · show PyFloat.round2 (clampOnly ⟨some (.fin (10001/1000)), some (.fin 20), false⟩ (.fin 5))
        = .fin 10
    rw [clampOnly_fin]
    have hmm : max (min (5:ℚ) 20) (10001/1000) = 10001/1000 := by
      rw [min_eq_left (by norm_num), max_eq_right (by norm_num)]
    rw [hmm]
    show PyFloat.fin (PyFloat.rndHalfEven (10001/1000 * 100) / 100) = .fin 10
    norm_num [PyFloat.rndHalfEven]
  · norm_num

/-- C4 (amended): the bounds invariant `min_price ≤ result ≤ max_price`
holds (including after the final rounding) provided both configured
bounds are themselves whole multiples of 0.01, i.e. representable at
the currency granularity the result is rounded to. -/
theorem adjust_bounds_of_centAligned (p lo hi : ℚ) (a b : ℤ)
    (hlo : lo = a / 100) (hhi : hi = b / 100) (hle : lo ≤ hi) :
    ∃ r : ℚ, adjust ⟨some (.fin lo), some (.fin hi), false⟩ (.fin p) = .fin r ∧
      lo ≤ r ∧ r ≤ hi := by
  subst hlo
  subst hhi
  set c : ℚ := max (min p ((b : ℚ) / 100)) ((a : ℚ) / 100) with hc
  have hc1 : (a : ℚ) / 100 ≤ c := le_max_right _ _
  have hc2 : c ≤ (b : ℚ) / 100 := max_le (min_le_right _ _) hle
  refine ⟨PyFloat.rndHalfEven (c * 100) / 100, ?_, ?_, ?_⟩
  · show PyFloat.round2
        (clampOnly ⟨some (.fin ((a : ℚ) / 100)), some (.fin ((b : ℚ) / 100)), false⟩ (.fin p)) = _
    rw [clampOnly_fin]
    rfl
  · have ha : (a : ℚ) ≤ c * 100 := by linarith
    have hcast : (a : ℚ) ≤ (PyFloat.rndHalfEven (c * 100) : ℚ) := by
      exact_mod_cast rndHalfEven_ge (c * 100) a ha
    linarith
  · have hb : c * 100 ≤ (b : ℚ) := by linarith
    have hcast : (PyFloat.rndHalfEven (c * 100) : ℚ) ≤ (b : ℚ) := by
      exact_mod_cast rndHalfEven_le (c * 100) b hb
    linarith

theorem adjust_bounds_of_centAligned_witness :
    (0 : ℚ) = ((0 : ℤ) : ℚ) / 100 ∧ (10 : ℚ) = ((1000 : ℤ) : ℚ) / 100 ∧ (0 : ℚ) ≤ 10 ∧
    ∃ r : ℚ, adjust ⟨some (.fin 0), some (.fin 10), false⟩ (.fin 5) = .fin r ∧
      (0 : ℚ) ≤ r ∧ r ≤ 10 :=
  ⟨by norm_num, by norm_num, by norm_num,
   adjust_bounds_of_centAligned 5 0 10 0 1000 (by norm_num) (by norm_num) (by norm_num)⟩

theorem lt_irr (x : PyFloat) : PyFloat.lt x x = false := by
  cases x with
  | nan => rfl
  | inf b => cases b <;> rfl
  | fin q => simp [PyFloat.lt]

theorem pymin_eq (a b : PyFloat) :
    PyFloat.pymin a b = if PyFloat.lt b a then b else a := rfl

theorem pymax_eq (a b : PyFloat) :
    PyFloat.pymax a b = if PyFloat.lt a b then b else a := rfl

/-- The Python `min` never ends up strictly above its second argument
(in the `lt` sense). -/
theorem lt_pymin (a b : PyFloat) : PyFloat.lt b (PyFloat.pymin a b) = false := by
  rw [pymin_eq]
  by_cases h : PyFloat.lt b a = true
  · rw [if_pos h]; exact lt_irr b
  · rw [if_neg h]; exact Bool.not_eq_true _ ▸ eq_false_of_ne_true h

/-- The Python `max` never ends up strictly below its second argument. -/
theorem lt_pymax (a b : PyFloat) : PyFloat.lt (PyFloat.pymax a b) b = false := by
  rw [pymax_eq]
  by_cases h : PyFloat.lt a b = true
  · rw [if_pos h]; exact lt_irr b
  · rw [if_neg h]; exact eq_false_of_ne_true h

/-- The clamp `max(min(_, mx), mn)` is idempotent for arbitrary bounds
(misordered, infinite or NaN included) and arbitrary input. -/
theorem pyclamp_idem (mn mx p : PyFloat) :
    PyFloat.pymax (PyFloat.pymin (PyFloat.pymax (PyFloat.pymin p mx) mn) mx) mn
      = PyFloat.pymax (PyFloat.pymin p mx) mn := by
  generalize hy : PyFloat.pymin p mx = y
  have hA : PyFloat.lt mx y = false := by rw [← hy]; exact lt_pymin p mx
  by_cases h2 : PyFloat.lt y mn = true
  · have hz : PyFloat.pymax y mn = mn := by rw [pymax_eq, if_pos h2]
    rw [hz]
    by_cases h3 : PyFloat.lt mx mn = true
    · have hm : PyFloat.pymin mn mx = mx := by rw [pymin_eq, if_pos h3]
      rw [hm, pymax_eq, if_pos h3]
    · have hm : PyFloat.pymin mn mx = mn := by rw [pymin_eq, if_neg h3]
      rw [hm, pymax_eq]
      simp [lt_irr]
  · have hz : PyFloat.pymax y mn = y := by rw [pymax_eq, if_neg h2]
    rw [hz]
    have hm : PyFloat.pymin y mx = y := by
      rw [pymin_eq, hA]
      simp
    rw [hm, pymax_eq, if_neg h2]

/-- The business-rule clamp step is idempotent for every configuration. -/
theorem clampOnly_idem (cfg : PricingConfig) (p : PyFloat) :
    clampOnly cfg (clampOnly cfg p) = clampOnly cfg p :=
  pyclamp_idem (cfg.min_price.getD (.fin 0)) (cfg.max_price.getD (.inf true)) p

/-- C7: with the discount disabled, clamping is idempotent: feeding the
clamp-only result back through the full adjustment gives the same
answer as adjusting the raw price directly — for every configuration
(well-ordered bounds or not) and every predicted price. -/
theorem adjust_clamp_idempotent (cfg : PricingConfig) (p : PyFloat)
    (hd : cfg.seasonal_discount = false) :
    adjust cfg (clampOnly cfg p) = adjust cfg p := by
  simp only [adjust, hd, Bool.false_eq_true, if_false, clampOnly_idem]

theorem adjust_clamp_idempotent_witness :
    (PricingConfig.mk (some (.fin 0)) (some (.fin 10)) false).seasonal_discount = false ∧
    adjust ⟨some (.fin 0), some (.fin 10), false⟩
        (clampOnly ⟨some (.fin 0), some (.fin 10), false⟩ (.fin 50))
      = adjust ⟨some (.fin 0), some (.fin 10), false⟩ (.fin 50) :=
  ⟨rfl, adjust_clamp_idempotent ⟨some (.fin 0), some (.fin 10), false⟩ (.fin 50) rfl⟩

/-- Key inventory of the market block: its features are emitted exactly
when the section is a present, nonempty dict. -/
theorem marketFeats_keys (o : Option (List (String × PyVal))) :
    ∃ f1, marketFeats ((o.map PyVal.dict).getD PyVal.none) = .ok f1 ∧
      ∀ key, hasKey f1 key
        = (o.elim false (fun es => !es.isEmpty)
            && (("market_demand" == key) || ("economic_indicator" == key))) := by
  rcases o with _ | es
  · exact ⟨[], rfl, fun key => by simp [hasKey]⟩
  · cases hes : es.isEmpty
    · refine ⟨[("market_demand", dget es "demand" (.num 0)),
              ("economic_indicator", dget es "economic_indicator" (.num 0))], ?_, ?_⟩
      · show marketFeats (PyVal.dict es) = _
        simp [marketFeats, PyVal.truthy, hes]
      · intro key
        simp [hasKey, hes]
    · refine ⟨[], ?_, ?_⟩
      · show marketFeats (PyVal.dict es) = .ok []
        simp [marketFeats, PyVal.truthy, hes]
      · intro key
        simp [hasKey, hes]

/-- Key inventory of the customer block. -/
theorem customerFeats_keys (o : Option (List (String × PyVal))) :
    ∃ f2, customerFeats ((o.map PyVal.dict).getD PyVal.none) = .ok f2 ∧
      ∀ key, hasKey f2 key
        = (o.elim false (fun es => !es.isEmpty)
            && (("customer_preference" == key) || ("seasonal_pattern" == key))) := by
  rcases o with _ | es
  · exact ⟨[], rfl, fun key => by simp [hasKey]⟩
  · cases hes : es.isEmpty
    · refine ⟨[("customer_preference", dget es "preference_score" (.num 0)),
              ("seasonal_pattern", dget es "seasonal_patterns" (.dict []))], ?_, ?_⟩
      · show customerFeats (PyVal.dict es) = _
        simp [customerFeats, PyVal.truthy, hes]
      · intro key
        simp [hasKey, hes]
    · refine ⟨[], ?_, ?_⟩
      · show customerFeats (PyVal.dict es) = .ok []
        simp [customerFeats, PyVal.truthy, hes]
      · intro key
        simp [hasKey, hes]

/-- Key inventory of the competitor block, under the proviso that the
`prices` entry (default `[]`) is a sized value, so that `len` does not
raise. -/
theorem competitorFeats_keys (o : Option (List (String × PyVal)))
    (ho : ∀ es, o = some es → ∃ n, pyLenVal (dget es "prices" (PyVal.list [])) = .ok n) :
    ∃ f3, competitorFeats ((o.map PyVal.dict).getD PyVal.none) = .ok f3 ∧
      ∀ key, hasKey f3 key
        = (o.elim false (fun es => !es.isEmpty)
            && (("competitor_price_avg" == key) || ("competitor_count" == key))) := by
  rcases o with _ | es
  · exact ⟨[], rfl, fun key => by simp [hasKey]⟩
  · obtain ⟨n, hn⟩ := ho es rfl
    cases hes : es.isEmpty
    · refine ⟨[("competitor_price_avg", dget es "avg_price" (.num 0)),
              ("competitor_count", n)], ?_, ?_⟩
      · show competitorFeats (PyVal.dict es) = _
        simp [competitorFeats, PyVal.truthy, hes, hn]
      · intro key
        simp [hasKey, hes]
    · refine ⟨[], ?_, ?_⟩
      · show competitorFeats (PyVal.dict es) = .ok []
        simp [competitorFeats, PyVal.truthy, hes]
      · intro key
        simp [hasKey, hes]

/-- C3 (counterexample): a bundle whose `market` key is present (bound
to an empty dict) still gets the market features omitted, so the
feature set does not omit exactly the features of the missing sections,
and "present but empty" is indistinguishable from "missing" in the
output. -/
theorem engineer_features_missing_cex :
    (RawDataBundle.mk (some (PyVal.dict [])) Option.none Option.none).market ≠ Option.none ∧
    engineer_features (RawDataBundle.mk (some (PyVal.dict [])) Option.none Option.none)
      = .ok [] :=
  ⟨Option.some_ne_none _, rfl⟩

/-- C3 (amended): over bundles whose sections are dicts or absent (and
whose competitor `prices` entry, when consulted, is a sized value),
`_engineer_features` returns without error, and each feature appears in
the output iff its source section is present *and nonempty* — in
particular the features of every missing section are omitted. -/
theorem engineer_features_sections (m c k : Option (List (String × PyVal)))
    (hk : ∀ es, k = some es → ∃ n, pyLenVal (dget es "prices" (PyVal.list [])) = .ok n) :
    ∃ fs, engineer_features ⟨m.map PyVal.dict, c.map PyVal.dict, k.map PyVal.dict⟩ = .ok fs ∧
      hasKey fs "market_demand" = m.elim false (fun es => !es.isEmpty) ∧
      hasKey fs "economic_indicator" = m.elim false (fun es => !es.isEmpty) ∧
      hasKey fs "customer_preference" = c.elim false (fun es => !es.isEmpty) ∧
      hasKey fs "seasonal_pattern" = c.elim false (fun es => !es.isEmpty) ∧
      hasKey fs "competitor_price_avg" = k.elim false (fun es => !es.isEmpty) ∧
      hasKey fs "competitor_count" = k.elim false (fun es => !es.isEmpty) := by
  obtain ⟨f1, h1, hk1⟩ := marketFeats_keys m
  obtain ⟨f2, h2, hk2⟩ := customerFeats_keys c
  obtain ⟨f3, h3, hk3⟩ := competitorFeats_keys k hk
  refine ⟨f1 ++ (f2 ++ f3), ?_, ?_⟩
  · simp [engineer_features, h1, h2, h3]
  · have happ : ∀ key, hasKey (f1 ++ (f2 ++ f3)) key
        = (hasKey f1 key || (hasKey f2 key || hasKey f3 key)) := by
      intro key
      simp [hasKey, List.any_append]
    refine ⟨?_, ?_, ?_, ?_, ?_, ?_⟩ <;>
      simp [happ, hk1, hk2, hk3]

theorem engineer_features_sections_witness :
    ∃ fs, engineer_features
        ⟨(some [("demand", PyVal.num 80)]).map PyVal.dict,
         (Option.none : Option (List (String × PyVal))).map PyVal.dict,
         (some [("avg_price", PyVal.num 50),
                ("prices", PyVal.list [PyVal.num 48, PyVal.num 52])]).map PyVal.dict⟩
        = .ok fs ∧
      hasKey fs "market_demand"
        = (some [("demand", PyVal.num 80)]).elim false (fun es => !es.isEmpty) ∧
      hasKey fs "economic_indicator"
        = (some [("demand", PyVal.num 80)]).elim false (fun es => !es.isEmpty) ∧
      hasKey fs "customer_preference"
        = (Option.none : Option (List (String × PyVal))).elim false (fun es => !es.isEmpty) ∧
      hasKey fs "seasonal_pattern"
        = (Option.none : Option (List (String × PyVal))).elim false (fun es => !es.isEmpty) ∧
      hasKey fs "competitor_price_avg"
        = (some [("avg_price", PyVal.num 50),
                 ("prices", PyVal.list [PyVal.num 48, PyVal.num 52])]).elim false
            (fun es => !es.isEmpty) ∧
      hasKey fs "competitor_count"
        = (some [("avg_price", PyVal.num 50),
                 ("prices", PyVal.list [PyVal.num 48, PyVal.num 52])]).elim false
            (fun es => !es.isEmpty) :=
  engineer_features_sections
    (some [("demand", PyVal.num 80)]) Option.none
    (some [("avg_price", PyVal.num 50), ("prices", PyVal.list [PyVal.num 48, PyVal.num 52])])
    (fun es h => by cases h; exact ⟨PyVal.num 2, rfl⟩)
